import Mathlib

/-!
Verification of the analysis-pipeline engine of the Excel-Analyzer
repository (`src/modules/formula_translator.py` and the pipeline loop of
`src/app.py`).

The embedding models polars DataFrames as lists of named columns of cell
values.  Cell values are null, numeric (modelled as rationals; the claims
under study do not involve IEEE-754 special values) or text.  Python
exceptions are modelled with `Except`; the user-facing `st.error` /
`st.warning` reports are modelled as a list of `Msg` values returned next
to the table.
-/

namespace ExcelAnalyzer

/-- A cell value of a table: null, a number, or a string. -/
inductive Val where
  | null : Val
  | num (q : ℚ) : Val
  | str (s : String) : Val
  deriving DecidableEq, Repr

/-- Whether a cell holds a number. -/
def Val.isNum : Val → Bool
  | .num _ => true
  | _ => false

/-- A table: ordered, named columns, each a list of cell values
    (one per row).  Mirrors the polars DataFrames used by the app. -/
structure Table where
  cols : List (String × List Val)
  deriving DecidableEq, Repr

/-- The column names of a table, in order. -/
def Table.colNames (t : Table) : List String := t.cols.map Prod.fst

/-- First column with the given name (polars column lookup). -/
def lookupCol : List (String × List Val) → String → Option (List Val)
  | [], _ => none
  | c :: cs, name => if c.1 = name then some c.2 else lookupCol cs name

/-- Column access on a table. -/
def Table.getCol? (t : Table) (name : String) : Option (List Val) :=
  lookupCol t.cols name

/-- Row count of a table (polars `df.height`): the length of its first
    column, 0 for a table with no columns. -/
def Table.height (t : Table) : Nat :=
  match t.cols with
  | [] => 0
  | c :: _ => c.2.length

/-- Well-formedness of a table: every column has the common row count and
    column names are unique.  These are invariants of polars DataFrames. -/
def Table.wf (t : Table) : Prop :=
  (∀ c ∈ t.cols, c.2.length = t.height) ∧ t.colNames.Nodup

instance (t : Table) : Decidable t.wf := by
  unfold Table.wf; infer_instance

/-- Replace the values of every column with the given name. -/
def setCol : List (String × List Val) → String → List Val → List (String × List Val)
  | [], _, _ => []
  | c :: cs, name, vs => (if c.1 = name then (c.1, vs) else c) :: setCol cs name vs

/-- polars `df.with_columns(expr.alias(name))`: replace the column of that
    name in place if it exists, otherwise append it. -/
def Table.withColumn (t : Table) (name : String) (vs : List Val) : Table :=
  if name ∈ t.colNames then ⟨setCol t.cols name vs⟩ else ⟨t.cols ++ [(name, vs)]⟩

/-- Keep the entries of `vs` whose position has `true` in the mask. -/
def maskFilter : List Val → List Bool → List Val
  | v :: vs, b :: bs => if b then v :: maskFilter vs bs else maskFilter vs bs
  | _, _ => []

/-- polars `df.filter(condition)` for an already materialized boolean mask
    (a null condition row counts as `false` and is dropped). -/
def Table.filterMask (t : Table) (mask : List Bool) : Table :=
  ⟨t.cols.map (fun c => (c.1, maskFilter c.2 mask))⟩

/-- Rename every column called `old` to `new` (tables are well-formed, so
    at most one column is affected). -/
def renameIn : List (String × List Val) → String → String → List (String × List Val)
  | [], _, _ => []
  | c :: cs, old, new => (if c.1 = old then (new, c.2) else c) :: renameIn cs old new

/-- Errors modelling the Python exceptions that can escape the step
    evaluators: `KeyError` on a dict access, polars `ColumnNotFoundError`,
    the `ValueError` raised for an unsupported operator, polars
    `DuplicateError` on a duplicated selection, and polars compute errors
    for comparisons or aggregations across incompatible value kinds. -/
inductive Err where
  | keyError (key : String) : Err
  | columnNotFound (col : String) : Err
  | valueError (msg : String) : Err
  | duplicateColumn (col : String) : Err
  | compareTypeError : Err
  | aggTypeError : Err
  deriving DecidableEq, Repr

/-- User-facing messages issued through `st.error` / `st.warning`. -/
inductive Msg where
  | noStepName : Msg
  | notImplemented (op : Option String) : Msg
  | opFailed (op : Option String) (e : Err) : Msg
  | needCalcCol (aggFunc : String) : Msg
  | startRowOutOfBounds (startRow : Int) (height : Nat) : Msg
  | stepFailed (idx : Nat) (name : Option String) (e : Err) : Msg
  deriving DecidableEq, Repr

/-- The `analysis_def` dictionary built by the UI: one optional slot per
    key the engine reads.  `none` models an absent key. -/
structure AnalysisDef where
  operation_type : Option String := none
  new_col_name : Option String := none
  lookup_df_name : Option String := none
  left_on : Option String := none
  right_on : Option String := none
  value_col : Option String := none
  operator : Option String := none
  first_col : Option String := none
  second_col : Option String := none
  if_col : Option String := none
  if_operator : Option String := none
  if_compare_type : Option String := none
  if_value : Option String := none
  if_compare_col : Option String := none
  value_if_true : Option String := none
  value_if_false : Option String := none
  cond_agg_if_col : Option String := none
  cond_agg_operator : Option String := none
  cond_agg_compare_type : Option String := none
  cond_agg_function : Option String := none
  cond_agg_calc_col : Option String := none
  cond_agg_value : Option String := none
  cond_agg_compare_col : Option String := none
  output_start_row : Option Int := none
  output_end_row : Option Int := none
  output_target_col : Option String := none
  deriving DecidableEq, Repr

instance {ε α : Type} [DecidableEq ε] [DecidableEq α] : DecidableEq (Except ε α) :=
  fun a b =>
    match a, b with
    | .ok x, .ok y =>
      if h : x = y then .isTrue (by rw [h]) else .isFalse (fun hh => by cases hh; exact h rfl)
    | .error x, .error y =>
      if h : x = y then .isTrue (by rw [h]) else .isFalse (fun hh => by cases hh; exact h rfl)
    | .ok _, .error _ => .isFalse (fun hh => by cases hh)
    | .error _, .ok _ => .isFalse (fun hh => by cases hh)

/-- The `all_dfs` registry: sheet name to table. -/
abbrev Registry := List (String × Table)

/-- Registry lookup. -/
def findTable : Registry → String → Option Table
  | [], _ => none
  | p :: ps, name => if p.1 = name then some p.2 else findTable ps name

/-- Python `all_dfs[name]`: `KeyError` when the name is absent. -/
def getTable (all_dfs : Registry) (name : String) : Except Err Table :=
  match findTable all_dfs name with
  | some t => .ok t
  | none => .error (.keyError name)

/-- Python `analysis_def[key]`: `KeyError` when the key is absent. -/
def getField {α : Type} (key : String) : Option α → Except Err α
  | some v => .ok v
  | none => .error (.keyError key)

/-- Python truthiness of an optional string (`None` and `''` are falsy). -/
def strTruthy : Option String → Bool
  | none => false
  | some s => !s.isEmpty

/-- Python truthiness of an optional integer (`None` and `0` are falsy). -/
def intTruthy : Option Int → Bool
  | none => false
  | some n => n != 0

/-- polars `pl.col(name)` materialization: `ColumnNotFoundError` when the
    column is absent. -/
def evalColumn (t : Table) (name : String) : Except Err (List Val) :=
  match t.getCol? name with
  | some vs => .ok vs
  | none => .error (.columnNotFound name)

/-- Digits of a decimal literal to a natural number. -/
def digitsToNat? (cs : List Char) : Option Nat :=
  if cs = [] then none
  else if cs.all Char.isDigit then
    some (cs.foldl (fun n c => 10 * n + (c.toNat - 48)) 0)
  else none

/-- Split a character list at the first decimal point. -/
def splitDot : List Char → List Char × Option (List Char)
  | [] => ([], none)
  | c :: rest =>
    if c = '.' then ([], some rest)
    else
      let (a, b) := splitDot rest
      (c :: a, b)

/-- Numeric literal parsing, modelling Python `float(...)` (and the polars
    string-to-Float64 cast) on plain decimal literals: optional surrounding
    whitespace, optional sign, digits with an optional decimal point.
    Exponent forms and specials such as `inf`/`nan` are outside the scope
    of the claims under study.  The rational is built through `mkRat` so
    that concrete runs reduce inside the kernel. -/
def parseFloat? (s : String) : Option ℚ :=
  let cs := ((s.toList.dropWhile Char.isWhitespace).reverse.dropWhile
    Char.isWhitespace).reverse
  let (neg, body) :=
    match cs with
    | '-' :: rest => (true, rest)
    | '+' :: rest => (false, rest)
    | _ => (false, cs)
  let sgn : Int := if neg then -1 else 1
  match splitDot body with
  | (intPart, none) =>
    (digitsToNat? intPart).map (fun n => mkRat (sgn * (n : Int)) 1)
  | (intPart, some fracPart) =>
    if fracPart.contains '.' then none
    else if intPart = [] ∧ fracPart = [] then none
    else
      let ip := if intPart = [] then some 0 else digitsToNat? intPart
      let fp := if fracPart = [] then some 0 else digitsToNat? fracPart
      match ip, fp with
      | some i, some f =>
        some (mkRat (sgn * ((i * 10 ^ fracPart.length + f : Nat) : Int))
          (10 ^ fracPart.length))
      | _, _ => none

/-- The `_attempt_cast` helper: numeric strings become numbers, everything
    else stays text. -/
def attemptCast (s : String) : Val :=
  match parseFloat? s with
  | some q => .num q
  | none => .str s

/-- polars `.cast(pl.Float64, strict=False)` on a cell: numbers are kept,
    numeric strings are parsed, anything else becomes null. -/
def castF64 (v : Val) : Val :=
  match v with
  | .null => .null
  | .num q => .num q
  | .str s =>
    match parseFloat? s with
    | some q => .num q
    | none => .null

/-- The six comparison operators of the condition builders. -/
inductive Cmp where
  | eq | ne | gt | lt | ge | le
  deriving DecidableEq, Repr

/-- The `if/elif` chain dispatching on the comparison operator string;
    the final `else` is the `raise ValueError(f"Unsupported operator: …")`. -/
def parseCmpOp (op : String) : Except Err Cmp :=
  if op = "==" then .ok .eq
  else if op = "!=" then .ok .ne
  else if op = ">" then .ok .gt
  else if op = "<" then .ok .lt
  else if op = ">=" then .ok .ge
  else if op = "<=" then .ok .le
  else .error (.valueError ("Unsupported operator: " ++ op))

/-- Row-wise comparison of two cells, with polars semantics: a null on
    either side yields a null result (`none`); numbers compare numerically,
    strings lexicographically; comparing a number with a string raises a
    compute error. -/
def cmpVals (c : Cmp) (a b : Val) : Except Err (Option Bool) :=
  match a, b with
  | .null, _ => .ok none
  | _, .null => .ok none
  | .num x, .num y =>
    .ok (some (match c with
      | .eq => x = y | .ne => x ≠ y | .gt => x > y
      | .lt => x < y | .ge => x ≥ y | .le => x ≤ y))
  | .str x, .str y =>
    .ok (some (match c with
      | .eq => x = y | .ne => x ≠ y | .gt => x > y
      | .lt => x < y | .ge => x ≥ y | .le => x ≤ y))
  | _, _ => .error .compareTypeError

/-- Materialize a comparison over paired rows into a boolean mask; a null
    comparison result behaves as `false` both in `pl.when` and in
    `df.filter`. -/
def cmpRows (c : Cmp) : List Val → List Val → Except Err (List Bool)
  | x :: xs, y :: ys => do
    let ob ← cmpVals c x y
    let rest ← cmpRows c xs ys
    .ok (ob.getD false :: rest)
  | _, _ => .ok []

/-- The right-hand side of a condition: either an already-cast literal or
    a reference to another column. -/
abbrev CondRhs := Sum Val String

/-- The `compare_type` branch shared by the IF and CONDITIONAL_AGG
    builders: `'Absolute Value'` casts the literal value field, anything
    else reads the compare-column field. -/
def condRhs (compare_type : String) (valueKey : String) (value : Option String)
    (compareKey : String) (compare_col : Option String) : Except Err CondRhs :=
  if compare_type = "Absolute Value" then
    (getField valueKey value).map (fun s => Sum.inl (attemptCast s))
  else
    (getField compareKey compare_col).map Sum.inr

/-- The materialized right-hand column of a condition: a literal is
    broadcast to the height of the checked column, a column reference is
    read from the table. -/
def rhsValues (t : Table) (n : Nat) : CondRhs → Except Err (List Val)
  | Sum.inl v => .ok (List.replicate n v)
  | Sum.inr cname => evalColumn t cname

/-- Materialize a built condition on a table: read the checked column,
    pair it with the literal (broadcast) or the compare column, and
    compare row-wise. -/
def materializeMask (t : Table) (ifColName : String) (c : Cmp) (rhs : CondRhs) :
    Except Err (List Bool) := do
  let lhs ← evalColumn t ifColName
  let rhsVals ← rhsValues t lhs.length rhs
  cmpRows c lhs rhsVals

/-- The four arithmetic operators of `apply_math`. -/
inductive ArithOp where
  | add | sub | mul | div
  deriving DecidableEq, Repr

/-- The `if/elif` chain of `apply_math` dispatching on the operator
    string; the final `else` raises `ValueError`. -/
def parseArithOp (op : String) : Except Err ArithOp :=
  if op = "+" then .ok .add
  else if op = "-" then .ok .sub
  else if op = "*" then .ok .mul
  else if op = "/" then .ok .div
  else .error (.valueError ("Unsupported operator: " ++ op))

/-- Rational addition through `mkRat`, so that concrete runs reduce inside
    the kernel; `qadd_eq` below identifies it with `+` on `ℚ`. -/
def qadd (a b : ℚ) : ℚ := mkRat (a.num * b.den + b.num * a.den) (a.den * b.den)

/-- Rational subtraction through `mkRat`; equals `-` on `ℚ` by `qsub_eq`. -/
def qsub (a b : ℚ) : ℚ := mkRat (a.num * b.den - b.num * a.den) (a.den * b.den)

/-- Rational multiplication through `mkRat`; equals `*` on `ℚ` by `qmul_eq`. -/
def qmul (a b : ℚ) : ℚ := mkRat (a.num * b.num) (a.den * b.den)

/-- Rational division through `Rat.divInt`. -/
def qdiv (a b : ℚ) : ℚ := Rat.divInt (a.num * b.den) ((a.den : Int) * b.num)

/-- Element-wise arithmetic on Float64-cast cells: any null operand gives
    null.  Division by zero yields an IEEE special value in polars; the
    rational model returns null there, and no claim under study exercises
    that case. -/
def arithVal (c : ArithOp) (a b : Val) : Val :=
  match a, b with
  | .num x, .num y =>
    match c with
    | .add => .num (qadd x y)
    | .sub => .num (qsub x y)
    | .mul => .num (qmul x y)
    | .div => if y = 0 then .null else .num (qdiv x y)
  | _, _ => .null

/-- polars `df.select([c1, c2])` as used on the lookup table:
    `DuplicateError` when both names coincide, `ColumnNotFoundError` when
    one is absent. -/
def Table.select2 (t : Table) (c1 c2 : String) : Except Err Table :=
  if c1 = c2 then .error (.duplicateColumn c1)
  else do
    let v1 ← evalColumn t c1
    let v2 ← evalColumn t c2
    .ok ⟨[(c1, v1), (c2, v2)]⟩

/-- The right-table rows matching a left key (in right-table order). -/
def lookupMatches (k : Val) : List Val → List Val → List Val
  | rk :: rks, rv :: rvs =>
    if rk = k then rv :: lookupMatches k rks rvs else lookupMatches k rks rvs
  | _, _ => []

/-- The values a left row with key `k` imports from the lookup table: its
    matches, or a single null when the key is null (null keys never join)
    or has no match. -/
def importsFor (k : Val) (rightKey rightVals : List Val) : List Val :=
  if k = Val.null then [Val.null]
  else
    match lookupMatches k rightKey rightVals with
    | [] => [Val.null]
    | ms => ms

/-- Repeat each entry of a column by the per-row multiplicity of the join. -/
def expandBy : List Val → List Nat → List Val
  | v :: vs, n :: ns => List.replicate n v ++ expandBy vs ns
  | _, _ => []

/-- polars left join of the main table with the two-column lookup subset,
    as performed by `apply_vlookup`: each left row is kept once per match
    (fan-out on duplicate lookup keys), unmatched left rows get one row
    with null, null keys never match, the right key column is dropped, and
    the imported value column is appended under `importedName`. -/
def leftJoinVL (main_df : Table) (leftKey rightKey rightVals : List Val)
    (importedName : String) : Table :=
  let imports := leftKey.map (fun k => importsFor k rightKey rightVals)
  ⟨main_df.cols.map (fun c => (c.1, expandBy c.2 (imports.map List.length)))
    ++ [(importedName, imports.flatten)]⟩

/-- polars `df.rename({old: new})`: strict, so a missing source column
    raises `ColumnNotFoundError`. -/
def Table.renameCol (t : Table) (old new : String) : Except Err Table :=
  if old ∈ t.colNames then .ok ⟨renameIn t.cols old new⟩
  else .error (.columnNotFound old)

/-- The `apply_vlookup` evaluator: select the key and value columns of the
    lookup table, left-join the main table to them, and rename the
    imported column to the step name.  polars suffixes the imported column
    with `_right` when its name collides with a main-table column. -/
def apply_vlookup (main_df : Table) (analysis_def : AnalysisDef) (all_dfs : Registry) :
    Except Err Table := do
  let lookup_name ← getField "lookup_df_name" analysis_def.lookup_df_name
  let lookup_df ← getTable all_dfs lookup_name
  let new_col_name ← getField "new_col_name" analysis_def.new_col_name
  let right_on ← getField "right_on" analysis_def.right_on
  let value_col ← getField "value_col" analysis_def.value_col
  let lookup_subset ← lookup_df.select2 right_on value_col
  let left_on ← getField "left_on" analysis_def.left_on
  let leftKey ← evalColumn main_df left_on
  let rightKey ← evalColumn lookup_subset right_on
  let rightVals ← evalColumn lookup_subset value_col
  let importedName :=
    if value_col ∈ main_df.colNames then value_col ++ "_right" else value_col
  let result_df := leftJoinVL main_df leftKey rightKey rightVals importedName
  result_df.renameCol value_col new_col_name

/-- The `apply_math` evaluator: cast both columns to Float64 best-effort,
    apply the operator element-wise, and write the result column.  Field
    reads, the operator check, and the column materialization happen in
    the source's order. -/
def apply_math (main_df : Table) (analysis_def : AnalysisDef) : Except Err Table := do
  let new_col_name ← getField "new_col_name" analysis_def.new_col_name
  let op ← getField "operator" analysis_def.operator
  let first_col ← getField "first_col" analysis_def.first_col
  let second_col ← getField "second_col" analysis_def.second_col
  let c ← parseArithOp op
  let v1 ← evalColumn main_df first_col
  let v2 ← evalColumn main_df second_col
  .ok (main_df.withColumn new_col_name
    (List.zipWith (fun a b => arithVal c (castF64 a) (castF64 b)) v1 v2))

/-- The `apply_if_condition` evaluator: build the condition, cast the two
    outcome literals, and write `value_if_true` where the condition holds
    and `value_if_false` elsewhere (a null condition row behaves as
    false). -/
def apply_if_condition (main_df : Table) (analysis_def : AnalysisDef) :
    Except Err Table := do
  let new_col_name ← getField "new_col_name" analysis_def.new_col_name
  let if_col ← getField "if_col" analysis_def.if_col
  let op ← getField "if_operator" analysis_def.if_operator
  let compare_type := analysis_def.if_compare_type.getD "Absolute Value"
  let rhs ← condRhs compare_type "if_value" analysis_def.if_value
    "if_compare_col" analysis_def.if_compare_col
  let true_val := Except.map attemptCast (getField "value_if_true" analysis_def.value_if_true)
  let false_val := Except.map attemptCast (getField "value_if_false" analysis_def.value_if_false)
  let tv ← true_val
  let fv ← false_val
  let c ← parseCmpOp op
  let mask ← materializeMask main_df if_col c rhs
  .ok (main_df.withColumn new_col_name (mask.map (fun b => if b then tv else fv)))

/-- Non-null values of a column. -/
def dropNulls (vs : List Val) : List Val := vs.filter (fun v => v ≠ Val.null)

/-- The non-null numbers of a column, or `none` when a non-numeric value
    is present. -/
def numsOf? (vs : List Val) : Option (List ℚ) :=
  (dropNulls vs).mapM (fun v => match v with | .num q => some q | _ => none)

/-- The non-null strings of a column, or `none` when a non-string value
    is present. -/
def strsOf? (vs : List Val) : Option (List String) :=
  (dropNulls vs).mapM (fun v => match v with | .str s => some s | _ => none)

/-- Sum of a list of rationals through `qadd` (kernel-reducible). -/
def qsum : List ℚ → ℚ
  | [] => 0
  | q :: qs => qadd q (qsum qs)

/-- polars `col.sum()` over the filtered rows: nulls are ignored and an
    all-null (or empty) column sums to 0; a non-numeric column raises. -/
def sumAgg (vs : List Val) : Except Err Val :=
  match numsOf? vs with
  | some qs => .ok (.num (qsum qs))
  | none => .error .aggTypeError

/-- polars `col.mean()`: the mean of the non-null numbers, null when all
    values are null; a non-numeric column raises. -/
def meanAgg (vs : List Val) : Except Err Val :=
  match numsOf? vs with
  | some [] => .ok .null
  | some qs => .ok (.num (qdiv (qsum qs) ((qs.length : Nat) : ℚ)))
  | none => .error .aggTypeError

/-- polars `col.min()`: numeric minimum, or lexicographic minimum for a
    string column; null when all values are null; mixed kinds raise. -/
def minAgg (vs : List Val) : Except Err Val :=
  match numsOf? vs with
  | some qs =>
    .ok (match qs with
      | [] => Val.null
      | q :: rest => Val.num (rest.foldl (fun a b => if b < a then b else a) q))
  | none =>
    match strsOf? vs with
    | some ss =>
      .ok (match ss with
        | [] => Val.null
        | s :: rest => Val.str (rest.foldl (fun a b => if b < a then b else a) s))
    | none => .error .aggTypeError

/-- polars `col.max()`, dual to `minAgg`. -/
def maxAgg (vs : List Val) : Except Err Val :=
  match numsOf? vs with
  | some qs =>
    .ok (match qs with
      | [] => Val.null
      | q :: rest => Val.num (rest.foldl (fun a b => if a < b then b else a) q))
  | none =>
    match strsOf? vs with
    | some ss =>
      .ok (match ss with
        | [] => Val.null
        | s :: rest => Val.str (rest.foldl (fun a b => if a < b then b else a) s))
    | none => .error .aggTypeError

/-- Step 3 of `apply_conditional_agg`: `result_value` starts at 0; a
    non-empty filtered table is counted, or reduced over the calculation
    column; a required-but-falsy calculation column is the local
    validation error (`inl`), on which the step returns the input table
    unchanged.  An unrecognized function with a truthy calculation column
    leaves `result_value` at 0 without touching the column. -/
def aggregateStep (filtered_df : Table) (agg_func : String)
    (calc_col_name : Option String) : Except Err (Sum Msg Val) :=
  if filtered_df.height > 0 then
    if agg_func = "Count" then .ok (.inr (.num (filtered_df.height : ℚ)))
    else if strTruthy calc_col_name then
      let cn := calc_col_name.getD ""
      if agg_func = "Sum" then do
        let vs ← evalColumn filtered_df cn
        (sumAgg vs).map .inr
      else if agg_func = "Average" then do
        let vs ← evalColumn filtered_df cn
        (meanAgg vs).map .inr
      else if agg_func = "Min" then do
        let vs ← evalColumn filtered_df cn
        (minAgg vs).map .inr
      else if agg_func = "Max" then do
        let vs ← evalColumn filtered_df cn
        (maxAgg vs).map .inr
      else .ok (.inr (.num 0))
    else .ok (.inl (.needCalcCol agg_func))
  else .ok (.inr (.num 0))

/-- Step 4 of `apply_conditional_agg`: place the scalar.  Without a truthy
    start row the scalar is broadcast into the step-name column; otherwise
    the 1-based inclusive row range (a single row when the end row is
    falsy) of the target column (the step name when no target column is
    set) is overwritten, the column being created as all-null first when
    absent; a start row at or beyond the table height is reported and the
    table returned unchanged. -/
def placeOutput (main_df : Table) (analysis_def : AnalysisDef)
    (new_col_name : String) (result_value : Val) : Table × List Msg :=
  let start_row := analysis_def.output_start_row
  let end_row := analysis_def.output_end_row
  let target_col := analysis_def.output_target_col
  if !intTruthy start_row then
    (main_df.withColumn new_col_name (List.replicate main_df.height result_value), [])
  else
    let s := start_row.getD 0
    let start_idx : Int := s - 1
    let end_idx : Int := if intTruthy end_row then end_row.getD 0 - 1 else start_idx
    if start_idx ≥ (main_df.height : Int) then
      (main_df, [.startRowOutOfBounds s main_df.height])
    else
      let output_col_name := if strTruthy target_col then target_col.getD "" else new_col_name
      let df :=
        if output_col_name ∈ main_df.colNames then main_df
        else main_df.withColumn output_col_name (List.replicate main_df.height Val.null)
      let old := (df.getCol? output_col_name).getD []
      (df.withColumn output_col_name
        ((List.range df.height).map (fun (i : Nat) =>
          if start_idx ≤ (i : Int) ∧ (i : Int) ≤ end_idx then result_value
          else old.getD i Val.null)), [])

/-- The `apply_conditional_agg` evaluator: build and materialize the
    condition, filter, aggregate (with the local calc-column validation),
    and place the result. -/
def apply_conditional_agg (main_df : Table) (analysis_def : AnalysisDef) :
    Except Err (Table × List Msg) := do
  let new_col_name ← getField "new_col_name" analysis_def.new_col_name
  let if_col ← getField "cond_agg_if_col" analysis_def.cond_agg_if_col
  let op ← getField "cond_agg_operator" analysis_def.cond_agg_operator
  let compare_type := analysis_def.cond_agg_compare_type.getD "Absolute Value"
  let agg_func ← getField "cond_agg_function" analysis_def.cond_agg_function
  let calc_col_name := analysis_def.cond_agg_calc_col
  let rhs ← condRhs compare_type "cond_agg_value" analysis_def.cond_agg_value
    "cond_agg_compare_col" analysis_def.cond_agg_compare_col
  let c ← parseCmpOp op
  let mask ← materializeMask main_df if_col c rhs
  let filtered_df := main_df.filterMask mask
  let r ← aggregateStep filtered_df agg_func calc_col_name
  match r with
  | .inl m => .ok (main_df, [m])
  | .inr result_value => .ok (placeOutput main_df analysis_def new_col_name result_value)

/-- The body of the `try` block of `apply_analysis`: dispatch on the
    operation type; an unrecognized type is the `st.warning` fall-through. -/
def dispatchStep (main_df : Table) (analysis_def : AnalysisDef) (all_dfs : Registry) :
    Except Err (Table × List Msg) :=
  let op_type := analysis_def.operation_type
  if op_type = some "VLOOKUP" then
    (apply_vlookup main_df analysis_def all_dfs).map (fun t => (t, []))
  else if op_type = some "MATH" then
    (apply_math main_df analysis_def).map (fun t => (t, []))
  else if op_type = some "IF" then
    (apply_if_condition main_df analysis_def).map (fun t => (t, []))
  else if op_type = some "CONDITIONAL_AGG" then
    apply_conditional_agg main_df analysis_def
  else .ok (main_df, [.notImplemented op_type])

/-- The `apply_analysis` dispatcher.  A falsy step name is reported before
    dispatch and the table returned unchanged; the `try/except Exception`
    around the dispatch turns any evaluator exception into a report plus
    the unchanged table, so no code path of `apply_analysis` itself
    raises. -/
def apply_analysis (main_df : Table) (analysis_def : AnalysisDef) (all_dfs : Registry) :
    Except Err (Table × List Msg) :=
  let op_type := analysis_def.operation_type
  if !strTruthy analysis_def.new_col_name then .ok (main_df, [.noStepName])
  else
    match dispatchStep main_df analysis_def all_dfs with
    | .ok r => .ok r
    | .error e => .ok (main_df, [.opFailed op_type e])

/-- polars `df.clone()`: the pure model is the identity. -/
def Table.clone (t : Table) : Table := t

/-- The pipeline loop of `app.py`: apply the steps left to right through
    `apply_analysis`; an exception escaping `apply_analysis` would report
    the 1-based failing step index, set `error_occured`, and break,
    keeping the table from before the failing step. -/
def runPipelineAux (all_dfs : Registry) : Nat → Table → List AnalysisDef →
    Table × List Msg × Option Nat
  | _, t, [] => (t, [], none)
  | i, t, d :: rest =>
    match apply_analysis t d all_dfs with
    | .ok (t2, ms) =>
      let (tf, msf, idx) := runPipelineAux all_dfs (i + 1) t2 rest
      (tf, ms ++ msf, idx)
    | .error e => (t, [.stepFailed i d.new_col_name e], some i)

/-- The pipeline runner: clone the base table and fold the steps over it,
    returning the final table, the reported messages, and the failing step
    index (`none` when the loop ran to completion). -/
def runPipeline (main_df : Table) (steps : List AnalysisDef) (all_dfs : Registry) :
    Table × List Msg × Option Nat :=
  runPipelineAux all_dfs 1 main_df.clone steps

/-! Concrete fixtures used by witnesses and counterexamples. -/

/-- A one-row table with a single numeric column `a`. -/
def fxBase : Table := ⟨[("a", [.num 1])]⟩

/-- A MATH step with the unsupported operator `%`. -/
def fxBadMath : AnalysisDef :=
  { operation_type := some "MATH"
    new_col_name := some "bad"
    operator := some "%"
    first_col := some "a"
    second_col := some "a" }

/-- A MATH step computing `a + a` into a new column `y`. -/
def fxAddMath : AnalysisDef :=
  { operation_type := some "MATH"
    new_col_name := some "y"
    operator := some "+"
    first_col := some "a"
    second_col := some "a" }

/-- The main table of the spec's concrete lookup scenario. -/
def fxMainIds : Table := ⟨[("id", [.num 1, .num 2, .num 3])]⟩

/-- The lookup table of the spec's concrete lookup scenario. -/
def fxRef : Table := ⟨[("rid", [.num 2, .num 3]), ("name", [.str "b", .str "c"])]⟩

/-- The LOOKUP step of the spec's concrete lookup scenario. -/
def fxLookupDef : AnalysisDef :=
  { operation_type := some "VLOOKUP"
    new_col_name := some "name"
    lookup_df_name := some "ref"
    left_on := some "id"
    right_on := some "rid"
    value_col := some "name" }

/-- A one-row main table whose key matches two lookup rows. -/
def fxFanMain : Table := ⟨[("id", [.num 1])]⟩

/-- A lookup table with a duplicated key. -/
def fxFanRef : Table := ⟨[("rid", [.num 1, .num 1]), ("name", [.str "a", .str "b"])]⟩

/-- A one-row table with a single numeric column `x`. -/
def fxCondT : Table := ⟨[("x", [.num 1])]⟩

/-- A CONDITIONAL_AGG Sum step without a calculation column whose
    condition (`x == 2`) matches no row of `fxCondT`. -/
def fxCondSumNoCalc : AnalysisDef :=
  { operation_type := some "CONDITIONAL_AGG"
    new_col_name := some "y"
    cond_agg_if_col := some "x"
    cond_agg_operator := some "=="
    cond_agg_value := some "2"
    cond_agg_function := some "Sum" }

/-- A CONDITIONAL_AGG Sum step without a calculation column whose
    condition (`x == 1`) matches the row of `fxCondT`. -/
def fxCondSumNoCalcHit : AnalysisDef :=
  { operation_type := some "CONDITIONAL_AGG"
    new_col_name := some "y"
    cond_agg_if_col := some "x"
    cond_agg_operator := some "=="
    cond_agg_value := some "1"
    cond_agg_function := some "Sum" }

/-- The base table of the spec's concrete SUMIF scenario. -/
def fxSumifT : Table :=
  ⟨[("id", [.num 1, .num 2, .num 3]), ("val", [.num 10, .num 20, .num 30])]⟩

/-- A CONDITIONAL_AGG Count step targeting row 2 of the table. -/
def fxCountPlace : AnalysisDef :=
  { operation_type := some "CONDITIONAL_AGG"
    new_col_name := some "out"
    cond_agg_if_col := some "id"
    cond_agg_operator := some ">"
    cond_agg_value := some "1"
    cond_agg_function := some "Count"
    output_start_row := some 2 }

/-- A MATH step record with the given output name, operator and operand
    columns. -/
def mathStep (nm op fc sc : String) : AnalysisDef :=
  { operation_type := some "MATH"
    new_col_name := some nm
    operator := some op
    first_col := some fc
    second_col := some sc }

/-- A CONDITIONAL_AGG Count step whose start row 4 lies beyond the
    3-row table. -/
def fxCountOutOfRange : AnalysisDef :=
  { operation_type := some "CONDITIONAL_AGG"
    new_col_name := some "out"
    cond_agg_if_col := some "id"
    cond_agg_operator := some ">"
    cond_agg_value := some "1"
    cond_agg_function := some "Count"
    output_start_row := some 4 }

/-! Helper lemmas. -/

theorem exceptBind_ok {ε α β : Type} (a : α) (f : α → Except ε β) :
    (Except.ok a >>= f : Except ε β) = f a := rfl

/-- The kernel-reducible addition `qadd` is addition on `ℚ`. -/
theorem qadd_eq (a b : ℚ) : qadd a b = a + b := by
  unfold qadd
  rw [Rat.mkRat_eq_div]
  have ha : ((a.den : ℚ)) ≠ 0 := by exact_mod_cast a.den_nz
  have hb : ((b.den : ℚ)) ≠ 0 := by exact_mod_cast b.den_nz
  conv_rhs => rw [← Rat.num_div_den a, ← Rat.num_div_den b]
  rw [div_add_div _ _ ha hb]
  push_cast
  ring_nf

/-- The kernel-reducible subtraction `qsub` is subtraction on `ℚ`. -/
theorem qsub_eq (a b : ℚ) : qsub a b = a - b := by
  unfold qsub
  rw [Rat.mkRat_eq_div]
  have ha : ((a.den : ℚ)) ≠ 0 := by exact_mod_cast a.den_nz
  have hb : ((b.den : ℚ)) ≠ 0 := by exact_mod_cast b.den_nz
  conv_rhs => rw [← Rat.num_div_den a, ← Rat.num_div_den b]
  rw [div_sub_div _ _ ha hb]
  push_cast
  ring_nf

/-- The kernel-reducible multiplication `qmul` is multiplication on `ℚ`. -/
theorem qmul_eq (a b : ℚ) : qmul a b = a * b := by
  unfold qmul
  rw [Rat.mkRat_eq_div]
  have ha : ((a.den : ℚ)) ≠ 0 := by exact_mod_cast a.den_nz
  have hb : ((b.den : ℚ)) ≠ 0 := by exact_mod_cast b.den_nz
  conv_rhs => rw [← Rat.num_div_den a, ← Rat.num_div_den b]
  rw [div_mul_div_comm]
  push_cast
  ring_nf

theorem exceptBind_ok_iff {ε α β : Type} (x : Except ε α) (f : α → Except ε β) (b : β) :
    (x >>= f) = .ok b ↔ ∃ a, x = .ok a ∧ f a = .ok b := by
  cases x with
  | ok a => simp [exceptBind_ok]
  | error e =>
    constructor
    · intro h; cases h
    · rintro ⟨a, ha, _⟩; cases ha

theorem evalColumn_ok_iff (t : Table) (n : String) (vs : List Val) :
    evalColumn t n = .ok vs ↔ t.getCol? n = some vs := by
  unfold evalColumn
  cases h : t.getCol? n with
  | some ws => simp
  | none => simp

theorem lookupCol_mem (cols : List (String × List Val)) (n : String) (vs : List Val)
    (h : lookupCol cols n = some vs) : (n, vs) ∈ cols := by
  induction cols with
  | nil => cases h
  | cons c cs ih =>
    by_cases hc : c.1 = n
    · rw [lookupCol, if_pos hc] at h
      injection h with h
      subst h; subst hc
      exact List.mem_cons_self _ _
    · rw [lookupCol, if_neg hc] at h
      exact List.mem_cons_of_mem _ (ih h)

theorem getCol?_wf_length (t : Table) (n : String) (vs : List Val)
    (hwf : t.wf) (h : t.getCol? n = some vs) : vs.length = t.height :=
  hwf.1 (n, vs) (lookupCol_mem t.cols n vs h)

theorem cmpRows_ok_length (c : Cmp) (xs ys : List Val) (bs : List Bool)
    (h : cmpRows c xs ys = .ok bs) : bs.length = min xs.length ys.length := by
  induction xs generalizing ys bs with
  | nil =>
    cases h; simp
  | cons x xs ih =>
    cases ys with
    | nil => cases h; simp
    | cons y ys =>
      rw [cmpRows] at h
      rw [exceptBind_ok_iff] at h
      obtain ⟨ob, _, h⟩ := h
      rw [exceptBind_ok_iff] at h
      obtain ⟨rest, hrest, h⟩ := h
      injection h with h
      subst h
      simp [ih ys rest hrest, Nat.succ_min_succ]

theorem materializeMask_ok_length (t : Table) (ic : String) (c : Cmp) (rhs : CondRhs)
    (mask : List Bool) (hwf : t.wf) (h : materializeMask t ic c rhs = .ok mask) :
    mask.length = t.height := by
  unfold materializeMask at h
  rw [exceptBind_ok_iff] at h
  obtain ⟨lhs, hlhs, h⟩ := h
  rw [exceptBind_ok_iff] at h
  obtain ⟨rv, hrv, h⟩ := h
  have hlen : lhs.length = t.height :=
    getCol?_wf_length t ic lhs hwf ((evalColumn_ok_iff t ic lhs).mp hlhs)
  have hrlen : t.height ≤ rv.length := by
    cases rhs with
    | inl v =>
      rw [rhsValues] at hrv
      injection hrv with hrv
      rw [← hrv, List.length_replicate, hlen]
    | inr cn =>
      rw [rhsValues] at hrv
      have := getCol?_wf_length t cn rv hwf ((evalColumn_ok_iff t cn rv).mp hrv)
      rw [this]
  rw [cmpRows_ok_length c lhs rv mask h, hlen]
  exact Nat.min_eq_left hrlen

theorem maskFilter_all_false (vs : List Val) (mask : List Bool)
    (h : ∀ b ∈ mask, b = false) : maskFilter vs mask = [] := by
  induction vs generalizing mask with
  | nil => cases mask <;> rfl
  | cons v vs ih =>
    cases mask with
    | nil => rfl
    | cons b bs =>
      have hb : b = false := h b (List.mem_cons_self _ _)
      subst hb
      rw [maskFilter, if_neg (by simp)]
      exact ih bs (fun x hx => h x (List.mem_cons_of_mem _ hx))

theorem filterMask_height_zero (t : Table) (mask : List Bool)
    (h : ∀ b ∈ mask, b = false) : (t.filterMask mask).height = 0 := by
  obtain ⟨cols⟩ := t
  cases cols with
  | nil => rfl
  | cons c cs =>
    simp [Table.filterMask, Table.height, maskFilter_all_false _ _ h]

theorem maskFilter_length_pos (vs : List Val) (mask : List Bool)
    (hle : mask.length ≤ vs.length) (ht : true ∈ mask) :
    0 < (maskFilter vs mask).length := by
  induction mask generalizing vs with
  | nil => cases ht
  | cons b bs ih =>
    cases vs with
    | nil => simp at hle
    | cons v vs =>
      cases b with
      | true => simp [maskFilter]
      | false =>
        rw [maskFilter, if_neg (by simp)]
        have ht' : true ∈ bs := by
          rcases List.mem_cons.mp ht with h | h
          · cases h
          · exact h
        exact ih vs (Nat.le_of_succ_le_succ hle) ht'

theorem filterMask_height_pos (t : Table) (mask : List Bool)
    (hwf : t.wf) (hlen : mask.length = t.height) (ht : true ∈ mask) :
    0 < (t.filterMask mask).height := by
  obtain ⟨cols⟩ := t
  cases cols with
  | nil =>
    exfalso
    rw [show Table.height ⟨[]⟩ = 0 from rfl] at hlen
    rw [List.length_eq_zero.mp hlen] at ht
    cases ht
  | cons c cs =>
    have hc : c.2.length = (Table.mk (c :: cs)).height :=
      hwf.1 c (List.mem_cons_self _ _)
    show 0 < (maskFilter c.2 mask).length
    exact maskFilter_length_pos c.2 mask (by rw [hlen, ← hc]) ht

/-- Characterization of a fully supplied CONDITIONAL_AGG run whose
    aggregation hit the local validation error. -/
theorem cond_agg_run_inl (t : Table) (d : AnalysisDef) (nm ic op f : String)
    (c : Cmp) (rhs : CondRhs) (mask : List Bool) (m : Msg)
    (hnm : d.new_col_name = some nm) (hic : d.cond_agg_if_col = some ic)
    (hop : d.cond_agg_operator = some op) (hf : d.cond_agg_function = some f)
    (hrhs : condRhs (d.cond_agg_compare_type.getD "Absolute Value") "cond_agg_value"
      d.cond_agg_value "cond_agg_compare_col" d.cond_agg_compare_col = .ok rhs)
    (hc : parseCmpOp op = .ok c)
    (hmask : materializeMask t ic c rhs = .ok mask)
    (hagg : aggregateStep (t.filterMask mask) f d.cond_agg_calc_col = .ok (.inl m)) :
    apply_conditional_agg t d = .ok (t, [m]) := by
  unfold apply_conditional_agg
  rw [hnm, hic, hop, hf]
  simp only [getField, exceptBind_ok]
  rw [hrhs]
  simp only [exceptBind_ok]
  rw [hc]
  simp only [exceptBind_ok]
  rw [hmask]
  simp only [exceptBind_ok]
  rw [hagg]
  rfl

/-- Characterization of a fully supplied CONDITIONAL_AGG run whose
    aggregation produced a scalar. -/
theorem cond_agg_run_inr (t : Table) (d : AnalysisDef) (nm ic op f : String)
    (c : Cmp) (rhs : CondRhs) (mask : List Bool) (r : Val)
    (hnm : d.new_col_name = some nm) (hic : d.cond_agg_if_col = some ic)
    (hop : d.cond_agg_operator = some op) (hf : d.cond_agg_function = some f)
    (hrhs : condRhs (d.cond_agg_compare_type.getD "Absolute Value") "cond_agg_value"
      d.cond_agg_value "cond_agg_compare_col" d.cond_agg_compare_col = .ok rhs)
    (hc : parseCmpOp op = .ok c)
    (hmask : materializeMask t ic c rhs = .ok mask)
    (hagg : aggregateStep (t.filterMask mask) f d.cond_agg_calc_col = .ok (.inr r)) :
    apply_conditional_agg t d = .ok (placeOutput t d nm r) := by
  unfold apply_conditional_agg
  rw [hnm, hic, hop, hf]
  simp only [getField, exceptBind_ok]
  rw [hrhs]
  simp only [exceptBind_ok]
  rw [hc]
  simp only [exceptBind_ok]
  rw [hmask]
  simp only [exceptBind_ok]
  rw [hagg]
  rfl

theorem placeOutput_broadcast (t : Table) (d : AnalysisDef) (nm : String) (r : Val)
    (h : intTruthy d.output_start_row = false) :
    placeOutput t d nm r = (t.withColumn nm (List.replicate t.height r), []) := by
  simp only [placeOutput]
  rw [h]
  rfl

theorem placeOutput_oob (t : Table) (d : AnalysisDef) (nm : String) (r : Val) (s : Int)
    (h : d.output_start_row = some s) (h0 : s ≠ 0)
    (hge : s - 1 ≥ (t.height : Int)) :
    placeOutput t d nm r = (t, [Msg.startRowOutOfBounds s t.height]) := by
  have ht : intTruthy (some s) = true := by simp [intTruthy, h0]
  simp only [placeOutput, h, ht, Option.getD_some, Bool.not_true, Bool.false_eq_true,
    if_false]
  rw [if_pos hge]

theorem placeOutput_target (t : Table) (d : AnalysisDef) (nm : String) (r : Val) (s : Int)
    (h : d.output_start_row = some s) (h0 : s ≠ 0)
    (hlt : ¬ (s - 1 ≥ (t.height : Int))) :
    placeOutput t d nm r =
      (let end_idx : Int :=
        if intTruthy d.output_end_row then d.output_end_row.getD 0 - 1 else s - 1
       let output_col_name :=
        if strTruthy d.output_target_col then d.output_target_col.getD "" else nm
       let df :=
        if output_col_name ∈ t.colNames then t
        else t.withColumn output_col_name (List.replicate t.height Val.null)
       let old := (df.getCol? output_col_name).getD []
       (df.withColumn output_col_name
         ((List.range df.height).map (fun (i : Nat) =>
           if s - 1 ≤ (i : Int) ∧ (i : Int) ≤ end_idx then r
           else old.getD i Val.null)), [])) := by
  have ht : intTruthy (some s) = true := by simp [intTruthy, h0]
  simp only [placeOutput, h, ht, Option.getD_some, Bool.not_true, Bool.false_eq_true,
    if_false]
  rw [if_neg hlt]

theorem placeOutput_msgs (t : Table) (d : AnalysisDef) (nm : String) (r : Val) :
    (placeOutput t d nm r).2 = [] ∨
    ∃ s, (placeOutput t d nm r).2 = [Msg.startRowOutOfBounds s t.height] := by
  cases ht : intTruthy d.output_start_row with
  | false => rw [placeOutput_broadcast t d nm r ht]; exact Or.inl rfl
  | true =>
    cases hs : d.output_start_row with
    | none => rw [hs] at ht; simp [intTruthy] at ht
    | some s =>
      have h0 : s ≠ 0 := by
        rw [hs] at ht
        simpa [intTruthy] using ht
      by_cases hge : s - 1 ≥ (t.height : Int)
      · rw [placeOutput_oob t d nm r s hs h0 hge]
        exact Or.inr ⟨s, rfl⟩
      · rw [placeOutput_target t d nm r s hs h0 hge]
        exact Or.inl rfl

theorem lookupCol_setCol_self (cols : List (String × List Val)) (n : String) (vs : List Val)
    (h : n ∈ cols.map Prod.fst) : lookupCol (setCol cols n vs) n = some vs := by
  induction cols with
  | nil => cases h
  | cons c cs ih =>
    by_cases hc : c.1 = n
    · rw [setCol, if_pos hc, lookupCol, if_pos hc]
    · rw [setCol, if_neg hc, lookupCol, if_neg hc]
      rcases List.mem_cons.mp h with h | h
      · exact absurd h.symm hc
      · exact ih h

theorem lookupCol_append_self (cols : List (String × List Val)) (n : String) (vs : List Val)
    (h : n ∉ cols.map Prod.fst) : lookupCol (cols ++ [(n, vs)]) n = some vs := by
  induction cols with
  | nil => rw [List.nil_append, lookupCol, if_pos rfl]
  | cons c cs ih =>
    have hc : c.1 ≠ n := fun hh => h (by rw [← hh]; exact List.mem_cons_self _ _)
    rw [List.cons_append, lookupCol, if_neg hc]
    exact ih (fun hh => h (List.mem_cons_of_mem _ hh))

theorem getCol?_withColumn_self (t : Table) (n : String) (vs : List Val) :
    (t.withColumn n vs).getCol? n = some vs := by
  unfold Table.withColumn
  by_cases h : n ∈ t.colNames
  · rw [if_pos h]
    exact lookupCol_setCol_self t.cols n vs h
  · rw [if_neg h]
    exact lookupCol_append_self t.cols n vs h

theorem lookupCol_setCol_ne (cols : List (String × List Val)) (n n' : String) (vs : List Val)
    (h : n' ≠ n) : lookupCol (setCol cols n vs) n' = lookupCol cols n' := by
  induction cols with
  | nil => rfl
  | cons c cs ih =>
    by_cases hc : c.1 = n
    · rw [setCol, if_pos hc, lookupCol, lookupCol]
      have : ¬ c.1 = n' := by rw [hc]; exact fun hh => h hh.symm
      rw [if_neg this, if_neg this]
      exact ih
    · rw [setCol, if_neg hc, lookupCol, lookupCol]
      by_cases hc' : c.1 = n'
      · rw [if_pos hc', if_pos hc']
      · rw [if_neg hc', if_neg hc']
        exact ih

theorem lookupCol_append_ne (cols : List (String × List Val)) (n n' : String) (vs : List Val)
    (h : n' ≠ n) : lookupCol (cols ++ [(n, vs)]) n' = lookupCol cols n' := by
  induction cols with
  | nil =>
    show (if n = n' then some vs else none : Option (List Val)) = none
    rw [if_neg (Ne.symm h)]
  | cons c cs ih =>
    rw [List.cons_append, lookupCol, lookupCol]
    by_cases hc : c.1 = n'
    · rw [if_pos hc, if_pos hc]
    · rw [if_neg hc, if_neg hc]
      exact ih

theorem getCol?_withColumn_ne (t : Table) (n n' : String) (vs : List Val)
    (h : n' ≠ n) : (t.withColumn n vs).getCol? n' = t.getCol? n' := by
  unfold Table.withColumn
  by_cases hm : n ∈ t.colNames
  · rw [if_pos hm]
    exact lookupCol_setCol_ne t.cols n n' vs h
  · rw [if_neg hm]
    exact lookupCol_append_ne t.cols n n' vs h

theorem setCol_names (cols : List (String × List Val)) (n : String) (vs : List Val) :
    (setCol cols n vs).map Prod.fst = cols.map Prod.fst := by
  induction cols with
  | nil => rfl
  | cons c cs ih =>
    rw [setCol]
    by_cases hc : c.1 = n
    · rw [if_pos hc]
      simp [ih]
    · rw [if_neg hc]
      simp [ih]

theorem withColumn_colNames (t : Table) (n : String) (vs : List Val) :
    (t.withColumn n vs).colNames =
      if n ∈ t.colNames then t.colNames else t.colNames ++ [n] := by
  unfold Table.withColumn
  by_cases h : n ∈ t.colNames
  · rw [if_pos h, if_pos h]
    exact setCol_names t.cols n vs
  · rw [if_neg h, if_neg h]
    show (t.cols ++ [(n, vs)]).map Prod.fst = t.cols.map Prod.fst ++ [n]
    simp

/-- Adding a fresh column to a non-empty table keeps its height. -/
theorem withColumn_height_append (t : Table) (n : String) (vs : List Val)
    (hne : t.cols ≠ []) (h : n ∉ t.colNames) :
    (t.withColumn n vs).height = t.height := by
  unfold Table.withColumn
  rw [if_neg h]
  obtain ⟨cols⟩ := t
  cases cols with
  | nil => exact absurd rfl hne
  | cons c cs => rfl

/-- Element-wise `+` then `-` over Float64-cast all-numeric columns is the
    identity on the first column (exactly, in the rational model). -/
theorem arith_round_trip (va vb : List Val)
    (hna : ∀ v ∈ va, v.isNum = true) (hnb : ∀ v ∈ vb, v.isNum = true)
    (hlen : va.length = vb.length) :
    List.zipWith (fun x y => arithVal .sub (castF64 x) (castF64 y))
      (List.zipWith (fun x y => arithVal .add (castF64 x) (castF64 y)) va vb) vb = va := by
  induction va generalizing vb with
  | nil => simp
  | cons x xs ih =>
    cases vb with
    | nil => simp at hlen
    | cons y ys =>
      have hx := hna x (List.mem_cons_self _ _)
      have hy := hnb y (List.mem_cons_self _ _)
      obtain ⟨qx, hqx⟩ : ∃ q, x = Val.num q := by
        cases x with
        | num q => exact ⟨q, rfl⟩
        | null => cases hx
        | str s => cases hx
      obtain ⟨qy, hqy⟩ : ∃ q, y = Val.num q := by
        cases y with
        | num q => exact ⟨q, rfl⟩
        | null => cases hy
        | str s => cases hy
      subst hqx
      subst hqy
      rw [List.zipWith_cons_cons, List.zipWith_cons_cons]
      have hhead : arithVal .sub (castF64 (arithVal .add (castF64 (Val.num qx))
          (castF64 (Val.num qy)))) (castF64 (Val.num qy)) = Val.num qx := by
        show Val.num (qsub (qadd qx qy) qy) = Val.num qx
        rw [qsub_eq, qadd_eq, add_sub_cancel_right]
      rw [hhead]
      rw [ih ys (fun v hv => hna v (List.mem_cons_of_mem _ hv))
        (fun v hv => hnb v (List.mem_cons_of_mem _ hv))
        (by simpa using hlen)]

theorem renameIn_fresh (cols : List (String × List Val)) (old new : String) (vs : List Val)
    (h : old ∉ cols.map Prod.fst) :
    renameIn (cols ++ [(old, vs)]) old new = cols ++ [(new, vs)] := by
  induction cols with
  | nil =>
    rw [List.nil_append, renameIn, if_pos rfl]
    rfl
  | cons c cs ih =>
    have hc : c.1 ≠ old := fun hh => h (by rw [← hh]; exact List.mem_cons_self _ _)
    rw [List.cons_append, renameIn, if_neg hc]
    rw [ih (fun hh => h (List.mem_cons_of_mem _ hh))]
    rfl

theorem lookupMatches_length_le_count (k : Val) (rks rvs : List Val) :
    (lookupMatches k rks rvs).length ≤ rks.count k := by
  induction rks generalizing rvs with
  | nil => cases rvs <;> simp [lookupMatches]
  | cons rk rks ih =>
    cases rvs with
    | nil => simp [lookupMatches]
    | cons rv rvs =>
      rw [lookupMatches, List.count_cons]
      by_cases hk : rk = k
      · rw [if_pos hk]
        have : (rk == k) = true := beq_iff_eq.mpr hk
        rw [this]
        simpa using ih rvs
      · rw [if_neg hk]
        have : (rk == k) = false := beq_eq_false_iff_ne.mpr hk
        rw [this]
        simpa using ih rvs

theorem lookupMatches_nil_of_not_mem (k : Val) (rks rvs : List Val) (h : k ∉ rks) :
    lookupMatches k rks rvs = [] := by
  induction rks generalizing rvs with
  | nil => cases rvs <;> rfl
  | cons rk rks ih =>
    cases rvs with
    | nil => rfl
    | cons rv rvs =>
      have hk : rk ≠ k := fun hh => h (by rw [hh]; exact List.mem_cons_self _ _)
      rw [lookupMatches, if_neg hk]
      exact ih rvs (fun hh => h (List.mem_cons_of_mem _ hh))

theorem importsFor_length_one (k : Val) (rks rvs : List Val)
    (h : k ≠ Val.null → rks.count k ≤ 1) :
    (importsFor k rks rvs).length = 1 := by
  unfold importsFor
  by_cases hk : k = Val.null
  · rw [if_pos hk]
    rfl
  · rw [if_neg hk]
    cases hm : lookupMatches k rks rvs with
    | nil => rfl
    | cons m ms =>
      have hle : (m :: ms).length ≤ 1 := by
        rw [← hm]
        exact Nat.le_trans (lookupMatches_length_le_count k rks rvs) (h hk)
      simp only [List.length_cons] at hle ⊢
      omega

theorem importsFor_null_of_no_match (k : Val) (rks rvs : List Val)
    (h : k = Val.null ∨ k ∉ rks) : importsFor k rks rvs = [Val.null] := by
  unfold importsFor
  rcases h with h | h
  · rw [if_pos h]
  · by_cases hk : k = Val.null
    · rw [if_pos hk]
    · rw [if_neg hk, lookupMatches_nil_of_not_mem k rks rvs h]

theorem expandBy_ones (vs : List Val) (counts : List Nat)
    (hc : ∀ n ∈ counts, n = 1) (hl : counts.length = vs.length) :
    expandBy vs counts = vs := by
  induction vs generalizing counts with
  | nil =>
    cases counts with
    | nil => rfl
    | cons n ns => simp at hl
  | cons v vs ih =>
    cases counts with
    | nil => simp at hl
    | cons n ns =>
      have hn : n = 1 := hc n (List.mem_cons_self _ _)
      subst hn
      rw [expandBy, List.replicate_one, List.singleton_append]
      rw [ih ns (fun m hm => hc m (List.mem_cons_of_mem _ hm)) (by simpa using hl)]

theorem flatten_singletons_get? (ls : List (List Val)) (h1 : ∀ l ∈ ls, l.length = 1)
    (i : Nat) (l : List Val) (hi : ls.get? i = some l) :
    ls.flatten.get? i = l.get? 0 := by
  induction ls generalizing i with
  | nil => cases hi
  | cons l0 rest ih =>
    obtain ⟨x, hx⟩ : ∃ x, l0 = [x] := by
      cases l0 with
      | nil => cases h1 [] (List.mem_cons_self _ _)
      | cons y ys =>
        cases ys with
        | nil => exact ⟨y, rfl⟩
        | cons z zs => simp at h1
    subst hx
    cases i with
    | zero =>
      injection hi with hi
      subst hi
      rfl
    | succ j =>
      rw [List.flatten_cons, List.singleton_append]
      show rest.flatten.get? j = l.get? 0
      exact ih (fun m hm => h1 m (List.mem_cons_of_mem _ hm)) j (by simpa using hi)

/-! Claim theorems. -/

/-- C9: the dispatcher `apply_analysis` never propagates an exception to
    its caller: on every input it returns a result, and whenever the
    dispatched evaluator raises (any error of any step kind), the returned
    table is the input table unchanged. -/
theorem apply_analysis_catches_all_errors (t : Table) (d : AnalysisDef) (reg : Registry) :
    (∃ out, apply_analysis t d reg = .ok out) ∧
    (∀ e, dispatchStep t d reg = .error e →
      ∃ msgs, apply_analysis t d reg = .ok (t, msgs)) := by
  constructor
  · unfold apply_analysis
    cases hb : strTruthy d.new_col_name
    · exact ⟨(t, [Msg.noStepName]), by simp [hb]⟩
    · cases hd : dispatchStep t d reg with
      | ok r => exact ⟨r, by simp [hb, hd]⟩
      | error e => exact ⟨(t, [Msg.opFailed d.operation_type e]), by simp [hb, hd]⟩
  · intro e he
    unfold apply_analysis
    cases hb : strTruthy d.new_col_name
    · exact ⟨[Msg.noStepName], by simp [hb]⟩
    · exact ⟨[Msg.opFailed d.operation_type e], by simp [hb, he]⟩

/-- Witness for C9: a MATH step with the unsupported operator `%` raises
    inside the evaluator, and `apply_analysis` returns the input table. -/
theorem apply_analysis_catches_all_errors_witness :
    ∃ msgs, apply_analysis fxBase fxBadMath [] = .ok (fxBase, msgs) :=
  (apply_analysis_catches_all_errors fxBase fxBadMath []).2
    (Err.valueError "Unsupported operator: %") (by decide)

/-- C8: a step whose `output_name` is absent or empty fails before
    dispatch: no evaluator of any kind runs and the input table is
    returned untransformed, with only the validation report. -/
theorem apply_analysis_missing_name_fails_before_dispatch (t : Table) (d : AnalysisDef)
    (reg : Registry) (h : d.new_col_name = none ∨ d.new_col_name = some "") :
    apply_analysis t d reg = .ok (t, [Msg.noStepName]) := by
  unfold apply_analysis
  rcases h with h | h <;> rw [h] <;> rfl

/-- Witness for C8 at a concrete step with an absent name. -/
theorem apply_analysis_missing_name_fails_before_dispatch_witness :
    apply_analysis fxBase { operation_type := some "MATH" } [] = .ok (fxBase, [Msg.noStepName]) :=
  apply_analysis_missing_name_fails_before_dispatch fxBase _ [] (Or.inl rfl)

/-- C1 counterexample: with a two-step pipeline whose first step is a
    MATH step failing on an unsupported operator, the runner does not
    stop: no failing step index is reported (the claim requires index 1)
    and the second step's output column `y` is present in the final
    table (the claim requires that the second step never run). -/
theorem pipeline_failfast_cex :
    (runPipeline fxBase [fxBadMath, fxAddMath] []).2.2 = none ∧
    (runPipeline fxBase [fxBadMath, fxAddMath] []).1.getCol? "y" = some [Val.num 2] := by
  decide

/-- C1 (amended): when the first step of a two-step pipeline fails inside
    its evaluator, the error is caught by `apply_analysis` and reported,
    the table reaches the second step unchanged, the second step executes,
    and no failing step index is reported. -/
theorem pipeline_continues_after_step_failure (t : Table) (reg : Registry)
    (d1 d2 : AnalysisDef) (e : Err) (out2 : Table × List Msg)
    (h1 : strTruthy d1.new_col_name = true)
    (h2 : dispatchStep t d1 reg = .error e)
    (h3 : apply_analysis t d2 reg = .ok out2) :
    runPipeline t [d1, d2] reg =
      (out2.1, Msg.opFailed d1.operation_type e :: out2.2, none) := by
  have ha : apply_analysis t d1 reg = .ok (t, [Msg.opFailed d1.operation_type e]) := by
    unfold apply_analysis
    simp [h1, h2]
  simp [runPipeline, Table.clone, runPipelineAux, ha, h3]

/-- Witness for C1 (amended) on the concrete failing pipeline. -/
theorem pipeline_continues_after_step_failure_witness :
    runPipeline fxBase [fxBadMath, fxAddMath] [] =
      (⟨[("a", [.num 1]), ("y", [.num 2])]⟩,
       [Msg.opFailed (some "MATH") (Err.valueError "Unsupported operator: %")], none) :=
  pipeline_continues_after_step_failure fxBase [] fxBadMath fxAddMath
    (Err.valueError "Unsupported operator: %")
    (⟨[("a", [.num 1]), ("y", [.num 2])]⟩, [])
    (by decide) (by decide) (by decide)

/-- C5: a CONDITIONAL_AGG step whose condition matches no row and which
    sets no row range yields the scalar 0 (a number, not null, with no
    error raised and no error reported), broadcast into every row of the
    `output_name` column. -/
theorem cond_agg_empty_filter_broadcasts_zero (t : Table) (d : AnalysisDef)
    (nm ic op f : String) (c : Cmp) (rhs : CondRhs) (mask : List Bool)
    (hnm : d.new_col_name = some nm) (hic : d.cond_agg_if_col = some ic)
    (hop : d.cond_agg_operator = some op) (hf : d.cond_agg_function = some f)
    (hrhs : condRhs (d.cond_agg_compare_type.getD "Absolute Value") "cond_agg_value"
      d.cond_agg_value "cond_agg_compare_col" d.cond_agg_compare_col = .ok rhs)
    (hc : parseCmpOp op = .ok c)
    (hmask : materializeMask t ic c rhs = .ok mask)
    (hall : ∀ b ∈ mask, b = false)
    (hstart : d.output_start_row = none) :
    apply_conditional_agg t d =
      .ok (t.withColumn nm (List.replicate t.height (Val.num 0)), []) := by
  have hh : (t.filterMask mask).height = 0 := filterMask_height_zero t mask hall
  have hagg : aggregateStep (t.filterMask mask) f d.cond_agg_calc_col =
      .ok (.inr (.num 0)) := by
    unfold aggregateStep
    rw [hh]
    rfl
  rw [cond_agg_run_inr t d nm ic op f c rhs mask (.num 0) hnm hic hop hf hrhs hc hmask hagg]
  rw [placeOutput_broadcast t d nm (.num 0) (by rw [hstart]; rfl)]

/-- Witness for C5: on a one-row table, a Sum step whose condition
    `x == 2` matches nothing broadcasts the scalar 0. -/
theorem cond_agg_empty_filter_broadcasts_zero_witness :
    apply_conditional_agg fxCondT fxCondSumNoCalc =
      .ok (⟨[("x", [.num 1]), ("y", [.num 0])]⟩, []) :=
  cond_agg_empty_filter_broadcasts_zero fxCondT fxCondSumNoCalc "y" "x" "==" "Sum"
    Cmp.eq (Sum.inl (attemptCast "2")) [false]
    rfl rfl rfl rfl (by decide) (by decide) (by decide) (by decide) rfl

/-- C10: with a non-Count aggregate function and no calculation column,
    a condition matching zero rows produces no validation report: the run
    succeeds and the scalar 0 is written by the output-placement stage;
    the missing-calc-column check is skipped entirely. -/
theorem cond_agg_empty_filter_skips_calc_col_check (t : Table) (d : AnalysisDef)
    (nm ic op f : String) (c : Cmp) (rhs : CondRhs) (mask : List Bool)
    (hnm : d.new_col_name = some nm) (hic : d.cond_agg_if_col = some ic)
    (hop : d.cond_agg_operator = some op) (hf : d.cond_agg_function = some f)
    (hrhs : condRhs (d.cond_agg_compare_type.getD "Absolute Value") "cond_agg_value"
      d.cond_agg_value "cond_agg_compare_col" d.cond_agg_compare_col = .ok rhs)
    (hc : parseCmpOp op = .ok c)
    (hmask : materializeMask t ic c rhs = .ok mask)
    (hall : ∀ b ∈ mask, b = false)
    (hfC : f ≠ "Count")
    (hcalc : d.cond_agg_calc_col = none) :
    apply_conditional_agg t d = .ok (placeOutput t d nm (Val.num 0)) ∧
    (∀ g, Msg.needCalcCol g ∉ (placeOutput t d nm (Val.num 0)).2) := by
  have hh : (t.filterMask mask).height = 0 := filterMask_height_zero t mask hall
  have hagg : aggregateStep (t.filterMask mask) f d.cond_agg_calc_col =
      .ok (.inr (.num 0)) := by
    unfold aggregateStep
    rw [hh]
    rfl
  refine ⟨cond_agg_run_inr t d nm ic op f c rhs mask (.num 0) hnm hic hop hf hrhs hc hmask hagg, ?_⟩
  intro g hg
  rcases placeOutput_msgs t d nm (.num 0) with hm | ⟨s, hm⟩
  · rw [hm] at hg
    cases hg
  · rw [hm] at hg
    rcases List.mem_singleton.mp hg with h
    cases h

/-- Witness for C10: the Sum step without calc column on the empty-match
    condition succeeds with the broadcast zero and reports nothing. -/
theorem cond_agg_empty_filter_skips_calc_col_check_witness :
    apply_conditional_agg fxCondT fxCondSumNoCalc =
      .ok (placeOutput fxCondT fxCondSumNoCalc "y" (Val.num 0)) :=
  (cond_agg_empty_filter_skips_calc_col_check fxCondT fxCondSumNoCalc "y" "x" "==" "Sum"
    Cmp.eq (Sum.inl (attemptCast "2")) [false]
    rfl rfl rfl rfl (by decide) (by decide) (by decide) (by decide) (by decide) rfl).1

/-- C2 counterexample: a CONDITIONAL_AGG Sum step with `calc_col` absent
    is NOT a no-op when its condition matches no row: the validation error
    is never raised, and the step writes a new `y = 0` column instead of
    returning the input table unchanged. -/
theorem cond_agg_missing_calc_col_not_noop_cex :
    apply_analysis fxCondT fxCondSumNoCalc [] =
      .ok (⟨[("x", [.num 1]), ("y", [.num 0])]⟩, []) ∧
    (⟨[("x", [.num 1]), ("y", [.num 0])]⟩ : Table) ≠ fxCondT := by decide

/-- C2 (amended): for a CONDITIONAL_AGG step, when the condition matches
    at least one row and `calc_col` is falsy while the function is not
    Count, or when a nonzero `output_start_row` exceeds the row count
    after a scalar was produced, the error is reported locally and the
    input table is returned unchanged; after any such degraded step that
    returned the table unchanged with a report, the pipeline continues
    with the subsequent steps from the unchanged table. -/
theorem cond_agg_local_errors_degrade_to_noop (t : Table) (d : AnalysisDef)
    (nm ic op f : String) (c : Cmp) (rhs : CondRhs) (mask : List Bool)
    (hwf : t.wf)
    (hnm : d.new_col_name = some nm) (hic : d.cond_agg_if_col = some ic)
    (hop : d.cond_agg_operator = some op) (hf : d.cond_agg_function = some f)
    (hrhs : condRhs (d.cond_agg_compare_type.getD "Absolute Value") "cond_agg_value"
      d.cond_agg_value "cond_agg_compare_col" d.cond_agg_compare_col = .ok rhs)
    (hc : parseCmpOp op = .ok c)
    (hmask : materializeMask t ic c rhs = .ok mask) :
    ((true ∈ mask ∧ f ≠ "Count" ∧ strTruthy d.cond_agg_calc_col = false) →
      apply_conditional_agg t d = .ok (t, [Msg.needCalcCol f])) ∧
    (∀ (r : Val) (s : Int),
      aggregateStep (t.filterMask mask) f d.cond_agg_calc_col = .ok (.inr r) →
      d.output_start_row = some s → s ≠ 0 → (t.height : Int) < s →
      apply_conditional_agg t d = .ok (t, [Msg.startRowOutOfBounds s t.height])) ∧
    (∀ (m : Msg) (reg : Registry) (rest : List AnalysisDef) (i : Nat),
      strTruthy d.new_col_name = true →
      d.operation_type = some "CONDITIONAL_AGG" →
      apply_conditional_agg t d = .ok (t, [m]) →
      runPipelineAux reg i t (d :: rest) =
        ((runPipelineAux reg (i + 1) t rest).1,
         m :: (runPipelineAux reg (i + 1) t rest).2.1,
         (runPipelineAux reg (i + 1) t rest).2.2)) := by
  refine ⟨?_, ?_, ?_⟩
  · rintro ⟨htrue, hfC, hcalc⟩
    have hpos : 0 < (t.filterMask mask).height :=
      filterMask_height_pos t mask hwf (materializeMask_ok_length t ic c rhs mask hwf hmask) htrue
    have hagg : aggregateStep (t.filterMask mask) f d.cond_agg_calc_col =
        .ok (.inl (Msg.needCalcCol f)) := by
      unfold aggregateStep
      rw [if_pos hpos, if_neg hfC, hcalc]
      rfl
    exact cond_agg_run_inl t d nm ic op f c rhs mask _ hnm hic hop hf hrhs hc hmask hagg
  · intro r s hagg hs h0 hlt
    rw [cond_agg_run_inr t d nm ic op f c rhs mask r hnm hic hop hf hrhs hc hmask hagg]
    rw [placeOutput_oob t d nm r s hs h0 (by omega)]
  · intro m reg rest i hname hty happ
    have ha : apply_analysis t d reg = .ok (t, [m]) := by
      unfold apply_analysis dispatchStep
      rw [hname, hty]
      simp [happ]
    simp [runPipelineAux, ha]

/-- Witness for C2 (amended): the Sum step without calc column whose
    condition matches the single row degrades to a reported no-op. -/
theorem cond_agg_local_errors_degrade_to_noop_witness :
    apply_conditional_agg fxCondT fxCondSumNoCalcHit =
      .ok (fxCondT, [Msg.needCalcCol "Sum"]) :=
  (cond_agg_local_errors_degrade_to_noop fxCondT fxCondSumNoCalcHit "y" "x" "==" "Sum"
    Cmp.eq (Sum.inl (attemptCast "1")) [true] (by decide)
    rfl rfl rfl rfl (by decide) (by decide) (by decide)).1
    ⟨by decide, by decide, by decide⟩

/-- C7: for all-numeric columns `a` and `b`, applying the ARITHMETIC step
    `+` on `(a, b)` into a column `c` distinct from `b` and then the
    ARITHMETIC step `-` on `(c, b)` reproduces the original values of
    column `a` (exactly, in the rational model, hence within any
    floating-point tolerance). -/
theorem math_add_sub_round_trip (t : Table) (a b c e : String) (va vb : List Val)
    (hwf : t.wf)
    (ha : t.getCol? a = some va) (hb : t.getCol? b = some vb)
    (hna : ∀ v ∈ va, v.isNum = true) (hnb : ∀ v ∈ vb, v.isNum = true)
    (hcb : c ≠ b) :
    ∃ t1 t2,
      apply_math t (mathStep c "+" a b) = .ok t1 ∧
      apply_math t1 (mathStep e "-" c b) = .ok t2 ∧
      t2.getCol? e = some va := by
  have hlen : va.length = vb.length := by
    rw [getCol?_wf_length t a va hwf ha, getCol?_wf_length t b vb hwf hb]
  refine ⟨t.withColumn c (List.zipWith
      (fun x y => arithVal .add (castF64 x) (castF64 y)) va vb),
    (t.withColumn c (List.zipWith
      (fun x y => arithVal .add (castF64 x) (castF64 y)) va vb)).withColumn e
        (List.zipWith (fun x y => arithVal .sub (castF64 x) (castF64 y))
          (List.zipWith (fun x y => arithVal .add (castF64 x) (castF64 y)) va vb) vb),
    ?_, ?_, ?_⟩
  · unfold apply_math mathStep
    simp only [getField, exceptBind_ok]
    rw [show parseArithOp "+" = .ok .add from rfl]
    simp only [exceptBind_ok]
    rw [(evalColumn_ok_iff t a va).mpr ha]
    simp only [exceptBind_ok]
    rw [(evalColumn_ok_iff t b vb).mpr hb]
    rfl
  · unfold apply_math mathStep
    simp only [getField, exceptBind_ok]
    rw [show parseArithOp "-" = .ok .sub from rfl]
    simp only [exceptBind_ok]
    rw [(evalColumn_ok_iff _ c _).mpr (getCol?_withColumn_self t c _)]
    simp only [exceptBind_ok]
    rw [(evalColumn_ok_iff _ b vb).mpr (by
      rw [getCol?_withColumn_ne t c b _ (Ne.symm hcb)]
      exact hb)]
    rfl
  · rw [getCol?_withColumn_self]
    rw [arith_round_trip va vb hna hnb hlen]

/-- Witness for C7 on a concrete two-column numeric table. -/
theorem math_add_sub_round_trip_witness :
    ∃ t1 t2,
      apply_math fxSumifT (mathStep "c1" "+" "id" "val") = .ok t1 ∧
      apply_math t1 (mathStep "c2" "-" "c1" "val") = .ok t2 ∧
      t2.getCol? "c2" = some [.num 1, .num 2, .num 3] :=
  math_add_sub_round_trip fxSumifT "id" "val" "c1" "c2"
    [.num 1, .num 2, .num 3] [.num 10, .num 20, .num 30]
    (by decide) (by decide) (by decide)
    (by decide) (by decide) (by decide)

/-- C4: a CONDITIONAL_AGG step with a truthy, in-range `output_start_row`
    writes the scalar into the target column (`output_target_col` when
    truthy, else the step name): rows whose 0-based index lies in the
    1-based inclusive range `[output_start_row, output_end_row or
    output_start_row]` are overwritten with the scalar (a falsy end row
    meaning a single-row target), rows outside the range keep their prior
    value, the column being created as all-null first when absent; other
    columns are untouched. -/
theorem cond_agg_targeted_output_placement (t : Table) (d : AnalysisDef)
    (nm ic op f : String) (c : Cmp) (rhs : CondRhs) (mask : List Bool) (r : Val) (s : Int)
    (hwf : t.wf)
    (hnm : d.new_col_name = some nm) (hic : d.cond_agg_if_col = some ic)
    (hop : d.cond_agg_operator = some op) (hf : d.cond_agg_function = some f)
    (hrhs : condRhs (d.cond_agg_compare_type.getD "Absolute Value") "cond_agg_value"
      d.cond_agg_value "cond_agg_compare_col" d.cond_agg_compare_col = .ok rhs)
    (hc : parseCmpOp op = .ok c)
    (hmask : materializeMask t ic c rhs = .ok mask)
    (hagg : aggregateStep (t.filterMask mask) f d.cond_agg_calc_col = .ok (.inr r))
    (hs : d.output_start_row = some s) (hs1 : 1 ≤ s) (hs2 : s ≤ (t.height : Int)) :
    ∃ t',
      apply_conditional_agg t d = .ok (t', []) ∧
      (let tcol := if strTruthy d.output_target_col then d.output_target_col.getD "" else nm
       let eIdx : Int :=
         if intTruthy d.output_end_row then d.output_end_row.getD 0 - 1 else s - 1
       t'.colNames = (if tcol ∈ t.colNames then t.colNames else t.colNames ++ [tcol]) ∧
       (∀ i : Nat, i < t.height →
         (t'.getCol? tcol).bind (fun col => col.get? i) =
           some (if s - 1 ≤ (i : Int) ∧ (i : Int) ≤ eIdx then r
                 else if tcol ∈ t.colNames then ((t.getCol? tcol).getD []).getD i Val.null
                 else Val.null)) ∧
       (∀ cn, cn ≠ tcol → t'.getCol? cn = t.getCol? cn)) := by
  have h0 : s ≠ 0 := by omega
  have hlt : ¬ (s - 1 ≥ (t.height : Int)) := by omega
  have happ := cond_agg_run_inr t d nm ic op f c rhs mask r hnm hic hop hf hrhs hc hmask hagg
  rw [placeOutput_target t d nm r s hs h0 hlt] at happ
  have hne : t.cols ≠ [] := by
    intro hnil
    have : t.height = 0 := by
      obtain ⟨cols⟩ := t
      cases hnil
      rfl
    omega
  set tcol := if strTruthy d.output_target_col = true then d.output_target_col.getD "" else nm
    with htcoldef
  set eIdx : Int :=
    if intTruthy d.output_end_row = true then d.output_end_row.getD 0 - 1 else s - 1
    with heidef
  set df := if tcol ∈ t.colNames then t
    else t.withColumn tcol (List.replicate t.height Val.null) with hdfdef
  set old := (df.getCol? tcol).getD [] with holddef
  set X := (List.range df.height).map (fun (i : Nat) =>
    if s - 1 ≤ (i : Int) ∧ (i : Int) ≤ eIdx then r else old.getD i Val.null) with hXdef
  have hdfh : df.height = t.height := by
    rw [hdfdef]
    by_cases hmem : tcol ∈ t.colNames
    · rw [if_pos hmem]
    · rw [if_neg hmem]
      exact withColumn_height_append t tcol _ hne hmem
  have hdfnames : df.colNames =
      (if tcol ∈ t.colNames then t.colNames else t.colNames ++ [tcol]) := by
    rw [hdfdef]
    by_cases hmem : tcol ∈ t.colNames
    · rw [if_pos hmem, if_pos hmem]
    · rw [if_neg hmem, if_neg hmem, withColumn_colNames, if_neg hmem]
  have htdf : tcol ∈ df.colNames := by
    rw [hdfnames]
    by_cases hmem : tcol ∈ t.colNames
    · rw [if_pos hmem]; exact hmem
    · rw [if_neg hmem]; exact List.mem_append_right _ (List.mem_singleton.mpr rfl)
  refine ⟨df.withColumn tcol X, happ, ?_, ?_, ?_⟩
  · rw [withColumn_colNames, if_pos htdf, hdfnames]
  · intro i hi
    rw [getCol?_withColumn_self]
    show X.get? i = _
    have hir : i < df.height := by rw [hdfh]; exact hi
    rw [hXdef, List.get?_map, List.get?_range hir]
    show some (if s - 1 ≤ (i : Int) ∧ (i : Int) ≤ eIdx then r else old.getD i Val.null) = _
    by_cases hrange : s - 1 ≤ (i : Int) ∧ (i : Int) ≤ eIdx
    · rw [if_pos hrange, if_pos hrange]
    · rw [if_neg hrange, if_neg hrange]
      by_cases hmem : tcol ∈ t.colNames
      · rw [if_pos hmem, holddef, hdfdef, if_pos hmem]
      · rw [if_neg hmem, holddef, hdfdef, if_neg hmem, getCol?_withColumn_self]
        show some ((List.replicate t.height Val.null).getD i Val.null) = some Val.null
        simp [List.getD_eq_getD_get?, List.get?_eq_getElem?, List.getElem?_replicate, hi]
  · intro cn hcn
    rw [getCol?_withColumn_ne _ _ _ _ hcn, hdfdef]
    by_cases hmem : tcol ∈ t.colNames
    · rw [if_pos hmem]
    · rw [if_neg hmem]
      exact getCol?_withColumn_ne t tcol cn _ hcn

/-- Witness for C4: the Count-into-row-2 step on the three-row table
    satisfies all hypotheses of the placement theorem. -/
theorem cond_agg_targeted_output_placement_witness :
    ∃ t', apply_conditional_agg fxSumifT fxCountPlace = .ok (t', []) := by
  obtain ⟨t', h, _⟩ := cond_agg_targeted_output_placement fxSumifT fxCountPlace
    "out" "id" ">" "Count" Cmp.gt (Sum.inl (attemptCast "1")) [false, true, true]
    (Val.num 2) 2 (by decide) rfl rfl rfl rfl (by decide) (by decide) (by decide)
    (by decide) rfl (by decide) (by decide)
  exact ⟨t', h⟩

/-- C6: the concrete LOOKUP scenario — importing `name` from
    `ref = {rid:[2,3], name:[b,c]}` into `{id:[1,2,3]}` by matching `id`
    to `rid` — yields `{id:[1,2,3], name:[null,b,c]}`; and in general,
    for a `value_col` not already among the current table's columns, a
    successful LOOKUP appends exactly one column named `output_name`
    (the imported `value_col`, renamed). -/
theorem vlookup_concrete_and_rename :
    (apply_vlookup fxMainIds fxLookupDef [("ref", fxRef)] =
      .ok ⟨[("id", [.num 1, .num 2, .num 3]), ("name", [.null, .str "b", .str "c"])]⟩) ∧
    (∀ (t : Table) (d : AnalysisDef) (reg : Registry) (vc nc : String) (t' : Table),
      d.value_col = some vc → d.new_col_name = some nc → vc ∉ t.colNames →
      apply_vlookup t d reg = .ok t' →
      t'.colNames = t.colNames ++ [nc]) := by
  constructor
  · decide
  · intro t d reg vc nc t' hvc hnc hfresh happ
    unfold apply_vlookup at happ
    rw [hvc, hnc] at happ
    simp only [getField, exceptBind_ok, exceptBind_ok_iff] at happ
    obtain ⟨lname, _, lt, _, rc, _, subset, _, lc, _, lk, _, rk, hrk, rv, hrv, hren⟩ := happ
    rw [if_neg hfresh] at hren
    set F := (lk.map (fun k => importsFor k rk rv)).flatten with hF
    have hjoin : leftJoinVL t lk rk rv vc =
        ⟨t.cols.map (fun c => (c.1, expandBy c.2
          ((lk.map (fun k => importsFor k rk rv)).map List.length))) ++ [(vc, F)]⟩ := by
      rfl
    rw [hjoin] at hren
    have hnames : (Table.mk (t.cols.map (fun c => (c.1, expandBy c.2
        ((lk.map (fun k => importsFor k rk rv)).map List.length))) ++ [(vc, F)])).colNames =
        t.colNames ++ [vc] := by
      show ((t.cols.map _) ++ [(vc, F)]).map Prod.fst = t.cols.map Prod.fst ++ [vc]
      rw [List.map_append, List.map_map]
      rfl
    unfold Table.renameCol at hren
    rw [if_pos (by rw [hnames]; exact List.mem_append_right _ (List.mem_singleton.mpr rfl))]
      at hren
    injection hren with hren
    subst hren
    show (renameIn _ vc nc).map Prod.fst = _
    have hfresh' : vc ∉ (t.cols.map (fun c => (c.1, expandBy c.2
        ((lk.map (fun k => importsFor k rk rv)).map List.length)))).map Prod.fst := by
      rw [List.map_map]
      exact hfresh
    rw [renameIn_fresh _ vc nc F hfresh']
    rw [List.map_append, List.map_map]
    rfl

/-- Witness for C6's general renaming clause, discharged on the concrete
    scenario. -/
theorem vlookup_concrete_and_rename_witness :
    (⟨[("id", [.num 1, .num 2, .num 3]), ("name", [.null, .str "b", .str "c"])]⟩ : Table).colNames
      = fxMainIds.colNames ++ ["name"] :=
  vlookup_concrete_and_rename.2 fxMainIds fxLookupDef [("ref", fxRef)] "name" "name"
    ⟨[("id", [.num 1, .num 2, .num 3]), ("name", [.null, .str "b", .str "c"])]⟩
    rfl rfl (by decide) (by decide)

/-- C3 counterexample: a LOOKUP whose key matches two lookup rows fans
    out: the one-row main table yields a two-row result, so the row count
    is not preserved for arbitrary join cardinality. -/
theorem vlookup_fanout_cex :
    apply_vlookup fxFanMain fxLookupDef [("ref", fxFanRef)] =
      .ok ⟨[("id", [.num 1, .num 1]), ("name", [.str "a", .str "b"])]⟩ ∧
    (⟨[("id", [.num 1, .num 1]), ("name", [.str "a", .str "b"])]⟩ : Table).height = 2 ∧
    fxFanMain.height = 1 := by decide

/-- C3 (amended): a LOOKUP step preserves the row count of the current
    table whenever every non-null left key matches at most one lookup
    row; left rows whose key is null or matches no lookup row receive
    null in the imported column. -/
theorem vlookup_preserves_height_of_unique_matches (t lt : Table) (d : AnalysisDef)
    (reg : Registry) (lname lc rc vc nc : String)
    (leftKey rightKey rightVals : List Val)
    (hwf : t.wf)
    (hld : d.lookup_df_name = some lname) (hreg : getTable reg lname = .ok lt)
    (hnc : d.new_col_name = some nc) (hrc : d.right_on = some rc)
    (hvc : d.value_col = some vc) (hlc : d.left_on = some lc)
    (hrcvc : rc ≠ vc)
    (hlk : t.getCol? lc = some leftKey)
    (hrk : lt.getCol? rc = some rightKey) (hrv : lt.getCol? vc = some rightVals)
    (huniq : ∀ k ∈ leftKey, k ≠ Val.null → rightKey.count k ≤ 1)
    (hvfresh : vc ∉ t.colNames) (hnfresh : nc ∉ t.colNames) :
    ∃ t', apply_vlookup t d reg = .ok t' ∧
      t'.height = t.height ∧
      (∀ (i : Nat) (k : Val), leftKey.get? i = some k → (k = Val.null ∨ k ∉ rightKey) →
        (t'.getCol? nc).bind (fun col => col.get? i) = some Val.null) := by
  have hklen : leftKey.length = t.height := getCol?_wf_length t lc leftKey hwf hlk
  set imports := leftKey.map (fun k => importsFor k rightKey rightVals) with himpdef
  have himp1 : ∀ l ∈ imports, l.length = 1 := by
    intro l hl
    rw [himpdef] at hl
    obtain ⟨k, hk, hlk'⟩ := List.mem_map.mp hl
    rw [← hlk']
    exact importsFor_length_one k rightKey rightVals (huniq k hk)
  set F := imports.flatten with hFdef
  have hjoineq : leftJoinVL t leftKey rightKey rightVals vc = ⟨t.cols ++ [(vc, F)]⟩ := by
    show (⟨t.cols.map (fun c => (c.1, expandBy c.2 (imports.map List.length)))
      ++ [(vc, imports.flatten)]⟩ : Table) = ⟨t.cols ++ [(vc, F)]⟩
    congr 1
    congr 1
    conv_rhs => rw [← List.map_id t.cols]
    apply List.map_congr_left
    intro c hc
    have hclen : c.2.length = t.height := hwf.1 c hc
    have hcnt : ∀ n ∈ imports.map List.length, n = 1 := by
      intro n hn
      obtain ⟨l, hl, hln⟩ := List.mem_map.mp hn
      rw [← hln]
      exact himp1 l hl
    have hcntlen : (imports.map List.length).length = c.2.length := by
      rw [List.length_map, himpdef, List.length_map, hklen, hclen]
    rw [expandBy_ones c.2 (imports.map List.length) hcnt hcntlen]
    rfl
  have hren : Table.renameCol ⟨t.cols ++ [(vc, F)]⟩ vc nc = .ok ⟨t.cols ++ [(nc, F)]⟩ := by
    unfold Table.renameCol
    have hmem : vc ∈ (Table.mk (t.cols ++ [(vc, F)])).colNames := by
      show vc ∈ (t.cols ++ [(vc, F)]).map Prod.fst
      rw [List.map_append]
      exact List.mem_append_right _ (by simp)
    rw [if_pos hmem]
    rw [renameIn_fresh t.cols vc nc F hvfresh]
  have hcols_ne : t.cols ≠ [] := by
    intro hnil
    rw [Table.getCol?, hnil] at hlk
    cases hlk
  refine ⟨⟨t.cols ++ [(nc, F)]⟩, ?_, ?_, ?_⟩
  · unfold apply_vlookup
    rw [hld]
    simp only [getField, exceptBind_ok]
    rw [hreg]
    simp only [exceptBind_ok]
    rw [hnc, hrc, hvc]
    simp only [getField, exceptBind_ok]
    have hsel : lt.select2 rc vc = .ok ⟨[(rc, rightKey), (vc, rightVals)]⟩ := by
      unfold Table.select2
      rw [if_neg hrcvc]
      rw [(evalColumn_ok_iff lt rc rightKey).mpr hrk]
      simp only [exceptBind_ok]
      rw [(evalColumn_ok_iff lt vc rightVals).mpr hrv]
      rfl
    rw [hsel]
    simp only [exceptBind_ok]
    rw [hlc]
    simp only [getField, exceptBind_ok]
    rw [(evalColumn_ok_iff t lc leftKey).mpr hlk]
    simp only [exceptBind_ok]
    have hrksub : evalColumn ⟨[(rc, rightKey), (vc, rightVals)]⟩ rc = .ok rightKey := by
      simp [evalColumn, Table.getCol?, lookupCol]
    rw [hrksub]
    simp only [exceptBind_ok]
    have hrvsub : evalColumn ⟨[(rc, rightKey), (vc, rightVals)]⟩ vc = .ok rightVals := by
      simp [evalColumn, Table.getCol?, lookupCol, hrcvc]
    rw [hrvsub]
    simp only [exceptBind_ok]
    rw [if_neg hvfresh]
    rw [hjoineq]
    exact hren
  · obtain ⟨cols⟩ := t
    cases cols with
    | nil => exact absurd rfl hcols_ne
    | cons c cs => rfl
  · intro i k hik hnom
    have hcol : (Table.mk (t.cols ++ [(nc, F)])).getCol? nc = some F :=
      lookupCol_append_self t.cols nc F hnfresh
    rw [hcol]
    show F.get? i = some Val.null
    have hgi : imports.get? i = some (importsFor k rightKey rightVals) := by
      rw [himpdef, List.get?_map, hik]
      rfl
    rw [importsFor_null_of_no_match k rightKey rightVals hnom] at hgi
    rw [hFdef, flatten_singletons_get? imports himp1 i [Val.null] hgi]
    rfl

/-- Witness for C3 (amended): the concrete scenario's keys match at most
    one lookup row each, and the unmatched key `1` receives null. -/
theorem vlookup_preserves_height_of_unique_matches_witness :
    ∃ t', apply_vlookup fxMainIds fxLookupDef [("ref", fxRef)] = .ok t' ∧
      t'.height = fxMainIds.height := by
  obtain ⟨t', h1, h2, _⟩ := vlookup_preserves_height_of_unique_matches
    fxMainIds fxRef fxLookupDef [("ref", fxRef)] "ref" "id" "rid" "name" "name"
    [.num 1, .num 2, .num 3] [.num 2, .num 3] [.str "b", .str "c"]
    (by decide) rfl (by decide) rfl rfl rfl rfl (by decide)
    (by decide) (by decide) (by decide) (by decide) (by decide) (by decide)
  exact ⟨t', h1, h2⟩

end ExcelAnalyzer
